import Mathlib

/-!
Shallow embedding of the TruckersMP VTC Availability Scanner API (`main.py`).

Modelling conventions:
* Python strings are Lean `String`s; character-level operations (strip,
  lower-casing, lexicographic comparison) are modelled structurally on
  `List Char` because they are ASCII-level in all inputs of interest.
* The BeautifulSoup step of `parse_vtcs_from_event_html` (collecting every
  `<a>` element and reading its `href` attribute) is abstracted: a page's
  markup is represented by the list of `href` attribute values of its `<a>`
  elements, `None` (absent attribute) included.  The per-href logic below is
  a direct translation of the loop body of `parse_vtcs_from_event_html`.
* Python `int(...)` applied to a string of ASCII decimal digits is modelled
  by `pyIntE`; the `ValueError`/`IndexError` branches of the source are kept
  as `Except` values so that the catch-and-skip structure is explicit.
* The network (`fetch_html`) is an oracle `String → Option Markup`:
  `none` models any `httpx.HTTPError` (non-2xx status, timeout, transport
  failure), `some m` a successful fetch of a page whose anchors are `m`.
-/

/-- The literal pattern `/vtc/` searched for in hyperlink targets. -/
def vtcPat : List Char := ['/', 'v', 't', 'c', '/']

/-- `containsSub pat s` models Python's substring test `pat in s`. -/
def containsSub (pat : List Char) : List Char → Bool
  | [] => pat.isEmpty
  | c :: t => pat.isPrefixOf (c :: t) || containsSub pat t

/-- `afterFirst pat s` models `s.split(pat, 1)[1]`: the suffix of `s` after
the first occurrence of `pat`, or `none` when `pat` does not occur (in the
source that indexing raises `IndexError`, which is caught). -/
def afterFirst (pat : List Char) : List Char → Option (List Char)
  | [] => if pat.isEmpty then some [] else none
  | c :: t =>
    if pat.isPrefixOf (c :: t) then some (List.drop pat.length (c :: t))
    else afterFirst pat t

/-- The loop of `parse_vtcs_from_event_html` that accumulates `id_str`:
take characters while `ch.isdigit()` holds, stop at the first non-digit. -/
def digitRun (s : List Char) : List Char := s.takeWhile Char.isDigit

/-- Numeric value of a run of ASCII decimal digits. -/
def digitsVal (s : List Char) : Nat :=
  s.foldl (fun n c => 10 * n + (c.toNat - 48)) 0

/-- Models Python `int(id_str)` on the accumulated digit string: succeeds
exactly on a nonempty all-ASCII-digit string, otherwise raises `ValueError`. -/
def pyIntE (s : List Char) : Except String Int :=
  if s ≠ [] ∧ ∀ c ∈ s, c.isDigit then .ok (digitsVal s : Nat) else .error "ValueError"

/-- One iteration of the anchor loop of `parse_vtcs_from_event_html`, with
the source's two `try/except` blocks modelled explicitly: the result is
`some n` when an id is extracted, `none` when the href is skipped (no
`/vtc/`, empty digit run, or a caught `IndexError`/`ValueError`). -/
def parseHrefE (href : String) : Except String (Option Int) :=
  if containsSub vtcPat href.data = false then .ok none
  else
    match (match afterFirst vtcPat href.data with
           | some t => Except.ok t
           | none => Except.error "IndexError") with
    | .error _ => .ok none      -- `except IndexError: continue`
    | .ok after =>
      let id_str := digitRun after
      if id_str = [] then .ok none
      else
        match pyIntE id_str with
        | .error _ => .ok none  -- `except ValueError: continue`
        | .ok n => .ok (some n)

/-- The pure collapse of `parseHrefE`: the id extracted from one href. -/
def parseHref (href : String) : Option Int :=
  (afterFirst vtcPat href.data).bind fun after =>
    let ds := digitRun after
    if ds = [] then none else some (digitsVal ds : Nat)

/-- A page's markup, abstracted to the `href` attribute values of its `<a>`
elements (`none` when the attribute is absent). -/
abbrev Markup := List (Option String)

/-- Loop body of `parse_vtcs_from_event_html`: process one anchor, adding
its extracted id (if any) to the accumulated set. -/
def parseStep (ids : Finset Int) (a : Option String) : Finset Int :=
  match a with
  | none => ids
  | some href =>
    match parseHref href with
    | none => ids
    | some n => insert n ids

/-- `parse_vtcs_from_event_html`: iterate over all anchors, skip those
without an href or without an extractable id, and collect the ids. -/
def parse_vtcs_from_event_html (anchors : Markup) : Finset Int :=
  anchors.foldl parseStep ∅

/-- `parse_vtcs_from_event_html` with every fallible sub-operation tracked
in `Except`, mirroring the source's exception flow. -/
def parse_vtcs_E (anchors : Markup) : Except String (Finset Int) :=
  anchors.foldlM
    (fun ids a =>
      match a with
      | none => pure ids
      | some href => do
        let r ← parseHrefE href
        match r with
        | none => pure ids
        | some n => pure (insert n ids))
    ∅

-- ---------------------------------------------------------------------
-- Basic lemmas about the extractor
-- ---------------------------------------------------------------------

theorem containsSub_iff_afterFirst (pat s : List Char) :
    containsSub pat s = (afterFirst pat s).isSome := by
  induction s with
  | nil =>
    simp only [containsSub, afterFirst]
    by_cases h : pat.isEmpty <;> simp [h]
  | cons c t ih =>
    simp only [containsSub, afterFirst]
    by_cases h : pat.isPrefixOf (c :: t) <;> simp [h, ih]

theorem parseHrefE_eq_ok (href : String) :
    parseHrefE href = .ok (parseHref href) := by
  unfold parseHrefE parseHref
  rcases hA : afterFirst vtcPat href.data with _ | after
  · have : containsSub vtcPat href.data = false := by
      rw [containsSub_iff_afterFirst, hA]; rfl
    simp [this, hA]
  · have hC : containsSub vtcPat href.data = true := by
      rw [containsSub_iff_afterFirst, hA]; rfl
    simp only [hC, Bool.true_eq_false, if_false, hA, Option.bind_some]
    by_cases hds : digitRun after = []
    · simp [hds]
    · have hall : ∀ c ∈ digitRun after, c.isDigit := by
        intro c hc
        exact List.mem_takeWhile_imp hc
      simp only [hds, pyIntE, if_false, ne_eq, not_false_iff, true_and]
      rw [if_pos hall]
      simp [hds]

theorem parseHref_none_of_no_pat (href : String)
    (h : afterFirst vtcPat href.data = none) : parseHref href = none := by
  simp [parseHref, h]

theorem parseStep_eq (ids : Finset Int) (a : Option String) :
    parseStep ids a = ids ∪ ((a.bind parseHref).elim ∅ ({·})) := by
  rcases a with _ | href
  · simp [parseStep]
  · rcases h : parseHref href with _ | n <;>
      simp [parseStep, h, Finset.insert_eq, Finset.union_comm]

theorem parse_foldl_acc (anchors : Markup) (acc : Finset Int) :
    anchors.foldl parseStep acc
      = acc ∪ (anchors.filterMap (fun a => a.bind parseHref)).toFinset := by
  induction anchors generalizing acc with
  | nil => simp
  | cons a rest ih =>
    rcases h : a.bind parseHref with _ | n
    · simp only [List.foldl_cons, List.filterMap_cons, h, ih, parseStep_eq,
        Option.elim]
      simp
    · simp only [List.foldl_cons, List.filterMap_cons, h, ih, parseStep_eq,
        Option.elim]
      ext m
      simp [List.mem_toFinset]
      tauto

theorem parse_eq_filterMap (anchors : Markup) :
    parse_vtcs_from_event_html anchors
      = (anchors.filterMap (fun a => a.bind parseHref)).toFinset := by
  rw [parse_vtcs_from_event_html, parse_foldl_acc]
  simp

theorem mem_parse (anchors : Markup) (n : Int) :
    n ∈ parse_vtcs_from_event_html anchors
      ↔ ∃ href, some href ∈ anchors ∧ parseHref href = some n := by
  rw [parse_eq_filterMap]
  simp only [List.mem_toFinset, List.mem_filterMap]
  constructor
  · rintro ⟨a, ha, hbind⟩
    rcases a with _ | href
    · simp at hbind
    · exact ⟨href, ha, hbind⟩
  · rintro ⟨href, ha, hp⟩
    exact ⟨some href, ha, hp⟩

theorem parse_append (l₁ l₂ : Markup) :
    parse_vtcs_from_event_html (l₁ ++ l₂)
      = parse_vtcs_from_event_html l₁ ∪ parse_vtcs_from_event_html l₂ := by
  simp [parse_eq_filterMap, List.filterMap_append]

theorem parse_E_eq_ok_aux (anchors : Markup) (acc : Finset Int) :
    anchors.foldlM
      (fun ids a =>
        match a with
        | none => pure ids
        | some href => do
          let r ← parseHrefE href
          match r with
          | none => pure ids
          | some n => pure (insert n ids))
      acc = Except.ok (anchors.foldl parseStep acc) := by
  induction anchors generalizing acc with
  | nil => rfl
  | cons a rest ih =>
    rcases a with _ | href
    · simpa [parseStep] using ih acc
    · rcases h : parseHref href with _ | n <;>
        simpa [parseHrefE_eq_ok, parseStep, h] using ih _

theorem parse_E_eq_ok (anchors : Markup) :
    parse_vtcs_E anchors = Except.ok (parse_vtcs_from_event_html anchors) :=
  parse_E_eq_ok_aux anchors ∅

-- ---------------------------------------------------------------------
-- Locating the first `/vtc/` occurrence
-- ---------------------------------------------------------------------

theorem isPrefixOf_congr_take {pat l₁ l₂ : List Char} (n : Nat)
    (hn : pat.length ≤ n) (heq : l₁.take n = l₂.take n) :
    pat.isPrefixOf l₁ = pat.isPrefixOf l₂ := by
  rw [Bool.eq_iff_iff, List.isPrefixOf_iff_prefix, List.isPrefixOf_iff_prefix]
  constructor
  · intro h
    have h1 : pat <+: l₁.take n := List.prefix_take_iff.mpr ⟨h, hn⟩
    rw [heq] at h1
    exact (List.prefix_take_iff.mp h1).1
  · intro h
    have h1 : pat <+: l₂.take n := List.prefix_take_iff.mpr ⟨h, hn⟩
    rw [← heq] at h1
    exact (List.prefix_take_iff.mp h1).1

/-- If `/vtc/` does not occur in `p` followed by the first four characters
`/vtc` (so no occurrence starts inside `p`), then the suffix returned for
`p ++ "/vtc/" ++ s` is exactly `s`. -/
theorem afterFirst_clean (p s : List Char)
    (h : containsSub vtcPat (p ++ vtcPat.dropLast) = false) :
    afterFirst vtcPat (p ++ (vtcPat ++ s)) = some s := by
  induction p with
  | nil =>
    have hshape : ([] : List Char) ++ (vtcPat ++ s)
        = '/' :: ('v' :: 't' :: 'c' :: '/' :: s) := by simp [vtcPat]
    have hpre : vtcPat.isPrefixOf ('/' :: ('v' :: 't' :: 'c' :: '/' :: s)) = true := by
      refine List.isPrefixOf_iff_prefix.mpr ⟨s, ?_⟩
      simp [vtcPat]
    rw [hshape, afterFirst]
    simp only [hpre, if_true]
    simp [vtcPat]
  | cons c p' ih =>
    rw [List.cons_append, containsSub, Bool.or_eq_false_iff] at h
    obtain ⟨h1, h2⟩ := h
    have htake : (c :: (p' ++ (vtcPat ++ s))).take (p'.length + 5)
        = (c :: (p' ++ vtcPat.dropLast)).take (p'.length + 5) := by
      rw [show p'.length + 5 = (p'.length + 4) + 1 from rfl]
      rw [List.take_succ_cons, List.take_succ_cons]
      congr 1
      simp [List.take_append_eq_append_take, List.take_of_length_le, vtcPat,
        Nat.add_sub_cancel_left]
    have h3 : vtcPat.isPrefixOf (c :: (p' ++ (vtcPat ++ s))) = false := by
      rw [isPrefixOf_congr_take (p'.length + 5) (by simp [vtcPat]) htake]
      exact h1
    rw [List.cons_append, afterFirst]
    simp only [h3, Bool.false_eq_true, if_false]
    exact ih h2

theorem digitRun_append (ds rest : List Char) (hds : ∀ c ∈ ds, c.isDigit)
    (hrest : ∀ c, rest.head? = some c → c.isDigit = false) :
    digitRun (ds ++ rest) = ds := by
  induction ds with
  | nil =>
    cases rest with
    | nil => rfl
    | cons r t =>
      simp [digitRun, List.takeWhile_cons, hrest r rfl]
  | cons d t ih =>
    have hd : d.isDigit = true := hds d (by simp)
    have ht : ∀ c ∈ t, c.isDigit = true := fun c hc => hds c (by simp [hc])
    simp only [List.cons_append, digitRun, List.takeWhile_cons, hd, if_true]
    exact congrArg (d :: ·) (ih ht)

/-- On a target of the shape `p ++ "/vtc/" ++ ds ++ rest` with no earlier
`/vtc/` occurrence, a nonempty all-digit run `ds` followed by a non-digit
(or end of string) extracts exactly the value of `ds`. -/
theorem parseHref_clean (p ds rest : List Char)
    (hclean : containsSub vtcPat (p ++ vtcPat.dropLast) = false)
    (hne : ds ≠ []) (hds : ∀ c ∈ ds, c.isDigit)
    (hrest : ∀ c, rest.head? = some c → c.isDigit = false) :
    parseHref (String.mk (p ++ (vtcPat ++ (ds ++ rest))))
      = some ((digitsVal ds : Nat) : Int) := by
  unfold parseHref
  have hdata : (String.mk (p ++ (vtcPat ++ (ds ++ rest)))).data
      = p ++ (vtcPat ++ (ds ++ rest)) := rfl
  rw [hdata, afterFirst_clean p (ds ++ rest) hclean]
  simp [digitRun_append ds rest hds hrest, hne]

/-- On a target of the shape `p ++ "/vtc/" ++ q` whose next character is not
a digit (a "non-numeric tail"), the href is silently skipped. -/
theorem parseHref_skip (p q : List Char)
    (hclean : containsSub vtcPat (p ++ vtcPat.dropLast) = false)
    (hq : ∀ c, q.head? = some c → c.isDigit = false) :
    parseHref (String.mk (p ++ (vtcPat ++ q))) = none := by
  unfold parseHref
  have hdata : (String.mk (p ++ (vtcPat ++ q))).data = p ++ (vtcPat ++ q) := rfl
  rw [hdata, afterFirst_clean p q hclean]
  have hrun : digitRun q = [] := by
    cases q with
    | nil => rfl
    | cons r t => simp [digitRun, List.takeWhile_cons, hq r rfl]
  simp [hrun]

-- ---------------------------------------------------------------------
-- Busy-set collection (`collect_busy_vtcs`)
-- ---------------------------------------------------------------------

/-- Models Python `url.strip()` (ASCII whitespace). -/
def trimChars (s : List Char) : List Char :=
  ((s.dropWhile Char.isWhitespace).reverse.dropWhile Char.isWhitespace).reverse

/-- The contribution one event reference makes to the busy set: empty when
the stripped reference is empty or its fetch fails, otherwise the ids
extracted from the fetched page. -/
def contrib (fetch : String → Option Markup) (url : String) : Finset Int :=
  let t := trimChars url.data
  if t = [] then ∅
  else
    match fetch (String.mk t) with
    | none => ∅
    | some page => parse_vtcs_from_event_html page

/-- Loop body of `collect_busy_vtcs`: strip the url, skip it when empty,
skip it when the fetch raises `httpx.HTTPError`, otherwise union in the
extracted ids (`busy.update(vtc_ids)`). -/
def collectStep (fetch : String → Option Markup) (busy : Finset Int)
    (url0 : String) : Finset Int :=
  let url := String.mk (trimChars url0.data)
  if url.data = [] then busy
  else
    match fetch url with
    | none => busy
    | some html => busy ∪ parse_vtcs_from_event_html html

/-- `collect_busy_vtcs`: accumulate the busy set over all event urls. -/
def collect_busy_vtcs (fetch : String → Option Markup)
    (event_urls : List String) : Finset Int :=
  event_urls.foldl (collectStep fetch) ∅

/-- Union of a list of finsets. -/
def unionList (l : List (Finset Int)) : Finset Int := l.foldr (· ∪ ·) ∅

/-- The pages of the event references that were actually fetched
successfully (nonempty after stripping, and no fetch error). -/
def successPages (fetch : String → Option Markup) (urls : List String) :
    List Markup :=
  urls.filterMap fun u =>
    let t := trimChars u.data
    if t = [] then none else fetch (String.mk t)

theorem collectStep_eq (fetch : String → Option Markup) (busy : Finset Int)
    (url : String) : collectStep fetch busy url = busy ∪ contrib fetch url := by
  unfold collectStep contrib
  by_cases ht : trimChars url.data = []
  · simp [ht]
  · simp only [ht, if_false]
    rcases hf : fetch (String.mk (trimChars url.data)) with _ | page <;>
      simp [hf]

theorem collect_foldl_acc (fetch : String → Option Markup)
    (urls : List String) (acc : Finset Int) :
    urls.foldl (collectStep fetch) acc
      = acc ∪ unionList (urls.map (contrib fetch)) := by
  induction urls generalizing acc with
  | nil => simp [unionList]
  | cons u rest ih =>
    rw [List.foldl_cons, collectStep_eq, ih]
    simp only [List.map_cons, unionList, List.foldr_cons]
    rw [Finset.union_assoc]

theorem collect_eq_unionList (fetch : String → Option Markup)
    (urls : List String) :
    collect_busy_vtcs fetch urls = unionList (urls.map (contrib fetch)) := by
  rw [collect_busy_vtcs, collect_foldl_acc]
  simp

theorem unionList_perm {l₁ l₂ : List (Finset Int)} (h : l₁.Perm l₂) :
    unionList l₁ = unionList l₂ := by
  induction h with
  | nil => rfl
  | cons x _ ih => simp [unionList, List.foldr_cons] at ih ⊢; rw [ih]
  | swap x y l =>
    simp only [unionList, List.foldr_cons]
    rw [← Finset.union_assoc, ← Finset.union_assoc, Finset.union_comm x y]
  | trans _ _ ih₁ ih₂ => exact ih₁.trans ih₂

theorem collect_perm (fetch : String → Option Markup)
    {urls₁ urls₂ : List String} (h : urls₁.Perm urls₂) :
    collect_busy_vtcs fetch urls₁ = collect_busy_vtcs fetch urls₂ := by
  rw [collect_eq_unionList, collect_eq_unionList]
  exact unionList_perm (h.map (contrib fetch))

theorem unionList_cons (x : Finset Int) (l : List (Finset Int)) :
    unionList (x :: l) = x ∪ unionList l := rfl

theorem collect_eq_successPages (fetch : String → Option Markup)
    (urls : List String) :
    collect_busy_vtcs fetch urls
      = unionList ((successPages fetch urls).map parse_vtcs_from_event_html) := by
  rw [collect_eq_unionList]
  induction urls with
  | nil => rfl
  | cons u rest ih =>
    by_cases ht : trimChars u.data = []
    · have hc : contrib fetch u = ∅ := by simp [contrib, ht]
      have hs : successPages fetch (u :: rest) = successPages fetch rest := by
        simp [successPages, List.filterMap_cons, ht]
      rw [List.map_cons, unionList_cons, hc, Finset.empty_union, ih, hs]
    · rcases hf : fetch (String.mk (trimChars u.data)) with _ | page
      · have hc : contrib fetch u = ∅ := by simp [contrib, ht, hf]
        have hs : successPages fetch (u :: rest) = successPages fetch rest := by
          simp [successPages, List.filterMap_cons, ht, hf]
        rw [List.map_cons, unionList_cons, hc, Finset.empty_union, ih, hs]
      · have hc : contrib fetch u = parse_vtcs_from_event_html page := by
          simp [contrib, ht, hf]
        have hs : successPages fetch (u :: rest) = page :: successPages fetch rest := by
          simp [successPages, List.filterMap_cons, ht, hf]
        rw [List.map_cons, unionList_cons, hc, ih, hs, List.map_cons, unionList_cons]

-- ---------------------------------------------------------------------
-- Roster loading (`load_vtc_db`)
-- ---------------------------------------------------------------------

/-- Raw roster record, modelling one dict of `vtcs_source.json`.  The
`idField` models `raw.get("id")` composed with Python `int(...)`:
`none` — no `id` key (`raw_id is None`); `some none` — an `id` value on
which `int(raw_id)` raises `TypeError`/`ValueError`; `some (some n)` — an
`id` value parsing to the integer `n`.  The remaining known keys are the
string fields read by `map_vtc_dict_to_entry`; every other key/value pair
is carried verbatim in `otherFields`. -/
structure RawVTC where
  idField : Option (Option Int)
  name : Option String
  status : Option String
  recruitment : Option String
  tmp_url : Option String
  truckersmp_url : Option String
  url : Option String
  discord : Option String
  discord_url : Option String
  otherFields : List (String × String)
deriving DecidableEq

/-- One element of the top-level JSON list: either not a dict (skipped by
`load_vtc_db`) or a raw record. -/
inductive RawItem where
  | notDict : RawItem
  | dict : RawVTC → RawItem
deriving DecidableEq

/-- Python dict assignment `result[vtc_id] = raw` on an association list in
insertion order: replace in place when the key exists, append otherwise. -/
def dictInsert (m : List (Int × RawVTC)) (k : Int) (v : RawVTC) :
    List (Int × RawVTC) :=
  if m.any (fun p => p.1 == k) then
    m.map (fun p => if p.1 == k then (k, v) else p)
  else m ++ [(k, v)]

/-- `load_vtc_db` on the list-shaped top level: skip non-dict entries and
entries without a parseable integer id, store the rest keyed by id. -/
def load_vtc_db (data : List RawItem) : List (Int × RawVTC) :=
  data.foldl
    (fun result item =>
      match item with
      | .notDict => result
      | .dict raw =>
        match raw.idField with
        | some (some vtc_id) => dictInsert result vtc_id raw
        | _ => result)
    []

/-- Per-claim characterization: the record for id `k` that appears last in
the source sequence, if any. -/
def lastWins (data : List RawItem) (k : Int) : Option RawVTC :=
  data.reverse.findSome? fun item =>
    match item with
    | .dict raw => if raw.idField = some (some k) then some raw else none
    | .notDict => none

theorem dictInsert_keys_of_mem (m : List (Int × RawVTC)) (k : Int) (v : RawVTC)
    (h : m.any (fun p => p.1 == k) = true) :
    (dictInsert m k v).map Prod.fst = m.map Prod.fst := by
  rw [dictInsert, if_pos h, List.map_map]
  refine List.map_congr_left ?_
  intro p _
  by_cases hp : p.1 == k
  · have : p.1 = k := by simpa using hp
    simp [Function.comp, hp, this]
  · simp [Function.comp, hp]

theorem dictInsert_nodup (m : List (Int × RawVTC)) (k : Int) (v : RawVTC)
    (h : (m.map Prod.fst).Nodup) : ((dictInsert m k v).map Prod.fst).Nodup := by
  by_cases hmem : m.any (fun p => p.1 == k)
  · rw [dictInsert_keys_of_mem m k v hmem]
    exact h
  · rw [dictInsert, if_neg hmem, List.map_append]
    simp only [List.map_cons, List.map_nil]
    rw [List.nodup_append]
    refine ⟨h, List.nodup_singleton k, ?_⟩
    intro a ha hb
    simp only [List.mem_singleton] at hb
    subst hb
    simp only [List.any_eq_true, not_exists, not_and] at hmem
    simp only [List.mem_map] at ha
    obtain ⟨p, hp, hpa⟩ := ha
    exact absurd (by simpa using hpa) (by simpa using hmem p hp)


/-- Reading the loaded mapping: the value stored for id `k` (first entry in
insertion order with that key — unique once keys are nodup). -/
def lookupId (k : Int) : List (Int × RawVTC) → Option RawVTC
  | [] => none
  | p :: rest => if p.1 = k then some p.2 else lookupId k rest

/-- The hit an individual source item scores for id `k`. -/
def idHit (k : Int) (item : RawItem) : Option RawVTC :=
  match item with
  | .dict raw => if raw.idField = some (some k) then some raw else none
  | .notDict => none

theorem lastWins_eq_findSome (data : List RawItem) (k : Int) :
    lastWins data k = data.reverse.findSome? (idHit k) := by
  unfold lastWins idHit
  rfl

theorem lastWins_cons (item : RawItem) (rest : List RawItem) (k : Int) :
    lastWins (item :: rest) k = (lastWins rest k).or (idHit k item) := by
  rw [lastWins_eq_findSome, lastWins_eq_findSome, List.reverse_cons,
    List.findSome?_append]
  congr 1
  cases hi : idHit k item <;> simp [List.findSome?, hi]

theorem lookupId_replace (m : List (Int × RawVTC)) (k : Int) (v : RawVTC)
    (hmem : m.any (fun p => p.1 == k) = true) :
    lookupId k (m.map (fun p => if p.1 == k then (k, v) else p)) = some v := by
  induction m with
  | nil => simp at hmem
  | cons q rest ih =>
    rcases q with ⟨a, b⟩
    simp only [List.any_cons, Bool.or_eq_true] at hmem
    by_cases hq : ((a, b).1 == k) = true
    · rw [List.map_cons, if_pos hq]
      simp [lookupId]
    · have hq' : ¬ a = k := by simpa using hq
      have hmem' : rest.any (fun p => p.1 == k) = true := by
        rcases hmem with h | h
        · exact absurd (by simpa using h) hq'
        · exact h
      rw [List.map_cons, if_neg hq]
      simp only [lookupId]
      rw [if_neg hq']
      exact ih hmem'

theorem lookupId_append_single (m : List (Int × RawVTC)) (k : Int) (v : RawVTC)
    (hmem : m.any (fun p => p.1 == k) = false) :
    lookupId k (m ++ [(k, v)]) = some v := by
  induction m with
  | nil => simp [lookupId]
  | cons q rest ih =>
    rcases q with ⟨a, b⟩
    simp only [List.any_cons, Bool.or_eq_false_iff] at hmem
    obtain ⟨h1, h2⟩ := hmem
    rw [List.cons_append]
    simp only [lookupId]
    rw [if_neg (by simpa using h1)]
    exact ih h2

theorem lookupId_dictInsert_self (m : List (Int × RawVTC)) (k : Int) (v : RawVTC) :
    lookupId k (dictInsert m k v) = some v := by
  by_cases hmem : m.any (fun p => p.1 == k) = true
  · rw [dictInsert, if_pos hmem]
    exact lookupId_replace m k v hmem
  · have hmem' : m.any (fun p => p.1 == k) = false := by
      rwa [Bool.not_eq_true] at hmem
    rw [dictInsert, if_neg (by simp [hmem'])]
    exact lookupId_append_single m k v hmem'

theorem lookupId_replace_ne (m : List (Int × RawVTC)) (k k' : Int) (v : RawVTC)
    (hne : k' ≠ k) :
    lookupId k' (m.map (fun p => if p.1 == k then (k, v) else p))
      = lookupId k' m := by
  induction m with
  | nil => rfl
  | cons q rest ih =>
    rcases q with ⟨a, b⟩
    by_cases hq : ((a, b).1 == k) = true
    · have hq' : a = k := by simpa using hq
      rw [List.map_cons, if_pos hq]
      simp only [lookupId]
      rw [if_neg (fun h => hne h.symm), if_neg (by simp [hq']; exact fun h => hne h.symm)]
      exact ih
    · rw [List.map_cons, if_neg hq]
      simp only [lookupId]
      by_cases hqk : a = k'
      · rw [if_pos hqk, if_pos hqk]
      · rw [if_neg hqk, if_neg hqk]
        exact ih

theorem lookupId_append_single_ne (m : List (Int × RawVTC)) (k k' : Int)
    (v : RawVTC) (hne : k' ≠ k) :
    lookupId k' (m ++ [(k, v)]) = lookupId k' m := by
  induction m with
  | nil =>
    simp only [List.nil_append, lookupId]
    rw [if_neg (fun h : k = k' => hne h.symm)]
  | cons q rest ih =>
    rcases q with ⟨a, b⟩
    rw [List.cons_append]
    simp only [lookupId]
    by_cases hqk : a = k'
    · rw [if_pos hqk, if_pos hqk]
    · rw [if_neg hqk, if_neg hqk]
      exact ih

theorem lookupId_dictInsert_ne (m : List (Int × RawVTC)) (k k' : Int)
    (v : RawVTC) (hne : k' ≠ k) :
    lookupId k' (dictInsert m k v) = lookupId k' m := by
  by_cases hmem : m.any (fun p => p.1 == k) = true
  · rw [dictInsert, if_pos hmem]
    exact lookupId_replace_ne m k k' v hne
  · have hmem' : m.any (fun p => p.1 == k) = false := by
      rwa [Bool.not_eq_true] at hmem
    rw [dictInsert, if_neg (by simp [hmem'])]
    exact lookupId_append_single_ne m k k' v hne

theorem lookupId_load_step (acc : List (Int × RawVTC)) (item : RawItem) (k : Int) :
    lookupId k
        (match item with
         | .notDict => acc
         | .dict raw =>
           match raw.idField with
           | some (some vtc_id) => dictInsert acc vtc_id raw
           | _ => acc)
      = (idHit k item).or (lookupId k acc) := by
  cases item with
  | notDict => simp [idHit, Option.none_or]
  | dict raw =>
    rcases hid : raw.idField with _ | oid
    · simp [idHit, hid, Option.none_or]
    · rcases oid with _ | n
      · simp [idHit, hid, Option.none_or]
      · by_cases hk : n = k
        · subst hk
          simp only [idHit, hid, if_pos rfl]
          rw [lookupId_dictInsert_self]
          rfl
        · have : ¬ raw.idField = some (some k) := by
            rw [hid]
            intro h
            exact hk (by injection (by injection h with h2) with h3)
          simp only [idHit, hid]
          rw [if_neg (by simpa [hid] using this)]
          rw [lookupId_dictInsert_ne acc n k raw (fun h => hk h.symm)]
          simp [Option.none_or]

theorem lookupId_load_aux (data : List RawItem) (k : Int)
    (acc : List (Int × RawVTC)) :
    lookupId k
        (data.foldl
          (fun result item =>
            match item with
            | .notDict => result
            | .dict raw =>
              match raw.idField with
              | some (some vtc_id) => dictInsert result vtc_id raw
              | _ => result)
          acc)
      = (lastWins data k).or (lookupId k acc) := by
  induction data generalizing acc with
  | nil => simp [lastWins, Option.none_or]
  | cons item rest ih =>
    rw [List.foldl_cons, ih, lastWins_cons, lookupId_load_step, Option.or_assoc]

/-- Last-write-wins on load: the value the loaded mapping holds for `k` is
the record appearing last in the source with parsed id `k`. -/
theorem lookupId_load (data : List RawItem) (k : Int) :
    lookupId k (load_vtc_db data) = lastWins data k := by
  rw [load_vtc_db, lookupId_load_aux]
  simp [lookupId]

theorem mem_dictInsert (m : List (Int × RawVTC)) (k : Int) (v : RawVTC)
    (p : Int × RawVTC) (h : p ∈ dictInsert m k v) : p = (k, v) ∨ p ∈ m := by
  rw [dictInsert] at h
  by_cases hmem : m.any (fun q => q.1 == k) = true
  · rw [if_pos hmem] at h
    obtain ⟨q, hq, hqp⟩ := List.mem_map.mp h
    by_cases hqk : (q.1 == k) = true
    · rw [if_pos hqk] at hqp
      exact Or.inl hqp.symm
    · rw [if_neg hqk] at hqp
      exact Or.inr (hqp ▸ hq)
  · rw [if_neg hmem] at h
    rcases List.mem_append.mp h with h | h
    · exact Or.inr h
    · exact Or.inl (List.mem_singleton.mp h)

theorem load_keys_nodup_aux (data : List RawItem) (acc : List (Int × RawVTC))
    (hacc : (acc.map Prod.fst).Nodup) :
    ((data.foldl
        (fun result item =>
          match item with
          | .notDict => result
          | .dict raw =>
            match raw.idField with
            | some (some vtc_id) => dictInsert result vtc_id raw
            | _ => result)
        acc).map Prod.fst).Nodup := by
  induction data generalizing acc with
  | nil => exact hacc
  | cons item rest ih =>
    rw [List.foldl_cons]
    cases item with
    | notDict => exact ih acc hacc
    | dict raw =>
      rcases hid : raw.idField with _ | oid
      · simp only [hid]
        exact ih acc hacc
      · rcases oid with _ | n
        · simp only [hid]
          exact ih acc hacc
        · simp only [hid]
          exact ih _ (dictInsert_nodup acc n raw hacc)

/-- Id uniqueness of the loaded mapping. -/
theorem load_keys_nodup (data : List RawItem) :
    ((load_vtc_db data).map Prod.fst).Nodup :=
  load_keys_nodup_aux data [] List.nodup_nil

theorem load_ids_stored_aux (data : List RawItem) (acc : List (Int × RawVTC))
    (hacc : ∀ p ∈ acc, p.2.idField = some (some p.1)) :
    ∀ p ∈ data.foldl
        (fun result item =>
          match item with
          | .notDict => result
          | .dict raw =>
            match raw.idField with
            | some (some vtc_id) => dictInsert result vtc_id raw
            | _ => result)
        acc, p.2.idField = some (some p.1) := by
  induction data generalizing acc with
  | nil => exact hacc
  | cons item rest ih =>
    rw [List.foldl_cons]
    cases item with
    | notDict => exact ih acc hacc
    | dict raw =>
      rcases hid : raw.idField with _ | oid
      · simp only [hid]
        exact ih acc hacc
      · rcases oid with _ | n
        · simp only [hid]
          exact ih acc hacc
        · simp only [hid]
          refine ih _ ?_
          intro p hp
          rcases mem_dictInsert acc n raw p hp with h | h
          · rw [h]
            exact hid
          · exact hacc p h

/-- Every entry of the loaded mapping stores a record whose id parsed to
exactly the entry's key: records without a parseable id never get in. -/
theorem load_ids_stored (data : List RawItem) :
    ∀ p ∈ load_vtc_db data, p.2.idField = some (some p.1) :=
  load_ids_stored_aux data [] (by intro p hp; simp at hp)

-- ---------------------------------------------------------------------
-- Response entries and the availability scan
-- ---------------------------------------------------------------------

/-- `VTCEntry` of the response (Pydantic model). -/
structure VTCEntry where
  id : Int
  name : Option String
  status : Option String
  recruitment : Option String
  tmp_url : Option String
  discord_url : Option String
  extra : Option (List (String × String))
deriving DecidableEq

/-- Python `a or b` on optional strings: `None` and `""` are falsy. -/
def pyOr (a b : Option String) : Option String :=
  match a with
  | none => b
  | some s => if s = "" then b else some s

/-- `map_vtc_dict_to_entry`: keep the known fields, fall back across the
alternative url keys, and stuff the remaining keys into `extra`
(`extra or None`: an empty dict becomes `None`). -/
def map_vtc_dict_to_entry (vtc_id : Int) (raw : RawVTC) : VTCEntry :=
  { id := vtc_id
    name := raw.name
    status := raw.status
    recruitment := raw.recruitment
    tmp_url := pyOr (pyOr raw.tmp_url raw.truckersmp_url) raw.url
    discord_url := pyOr raw.discord raw.discord_url
    extra := if raw.otherFields = [] then none else some raw.otherFields }

/-- Python `str.lower()` on ASCII content. -/
def lowerChars (s : List Char) : List Char := s.map Char.toLower

/-- Python string `<` (lexicographic by code point). -/
def strLt : List Char → List Char → Bool
  | [], [] => false
  | [], _ :: _ => true
  | _ :: _, [] => false
  | a :: as, b :: bs =>
    if a.toNat < b.toNat then true
    else if b.toNat < a.toNat then false
    else strLt as bs

theorem strLt_irrefl : ∀ s : List Char, strLt s s = false
  | [] => rfl
  | c :: t => by
    simp only [strLt]
    rw [if_neg (by omega : ¬ c.toNat < c.toNat), if_neg (by omega : ¬ c.toNat < c.toNat)]
    exact strLt_irrefl t

theorem strLt_trans : ∀ a b c : List Char,
    strLt a b = true → strLt b c = true → strLt a c = true
  | [], b, c, hab, hbc => by
    cases b with
    | nil => simp [strLt] at hab
    | cons x xs =>
      cases c with
      | nil => simp [strLt] at hbc
      | cons y ys => rfl
  | u :: us, b, c, hab, hbc => by
    cases b with
    | nil => simp [strLt] at hab
    | cons x xs =>
      cases c with
      | nil => simp [strLt] at hbc
      | cons y ys =>
        simp only [strLt] at hab hbc ⊢
        by_cases h1 : u.toNat < x.toNat
        · by_cases h2 : x.toNat < y.toNat
          · rw [if_pos (by omega : u.toNat < y.toNat)]
          · by_cases h3 : y.toNat < x.toNat
            · rw [if_neg h2, if_pos h3] at hbc
              exact absurd hbc (by simp)
            · rw [if_pos (by omega : u.toNat < y.toNat)]
        · by_cases hx : x.toNat < u.toNat
          · rw [if_neg h1, if_pos hx] at hab
            exact absurd hab (by simp)
          · rw [if_neg h1, if_neg hx] at hab
            by_cases h2 : x.toNat < y.toNat
            · rw [if_pos (by omega : u.toNat < y.toNat)]
            · by_cases h3 : y.toNat < x.toNat
              · rw [if_neg h2, if_pos h3] at hbc
                exact absurd hbc (by simp)
              · rw [if_neg h2, if_neg h3] at hbc
                rw [if_neg (by omega : ¬ u.toNat < y.toNat),
                  if_neg (by omega : ¬ y.toNat < u.toNat)]
                exact strLt_trans us xs ys hab hbc

theorem strLt_asymm (a b : List Char) (h : strLt a b = true) :
    strLt b a = false := by
  cases hba : strLt b a
  · rfl
  · have := strLt_trans a b a h hba
    rw [strLt_irrefl] at this
    exact absurd this (by simp)

theorem strLt_connex : ∀ a b : List Char,
    strLt a b = false → strLt b a = false → a = b
  | [], [], _, _ => rfl
  | [], _ :: _, hab, _ => by simp [strLt] at hab
  | _ :: _, [], _, hba => by simp [strLt] at hba
  | u :: us, x :: xs, hab, hba => by
    simp only [strLt] at hab hba
    by_cases h1 : u.toNat < x.toNat
    · rw [if_pos h1] at hab
      exact absurd hab (by simp)
    · by_cases h2 : x.toNat < u.toNat
      · rw [if_pos h2] at hba
        exact absurd hba (by simp)
      · rw [if_neg h1, if_neg h2] at hab
        rw [if_neg h2, if_neg h1] at hba
        have hn : u.toNat = x.toNat := by omega
        have hu : u = x := Char.eq_of_val_eq (UInt32.ext hn)
        rw [hu, strLt_connex us xs hab hba]

/-- The sort key of `free_vtcs.sort(key=lambda v: (v.status or "ZZZ",
(v.name or "").lower()))`. -/
def sortKey (v : VTCEntry) : List Char × List Char :=
  ((match v.status with
    | none => "ZZZ".data
    | some s => if s = "" then "ZZZ".data else s.data),
   lowerChars (v.name.getD "").data)

/-- Python tuple `≤` on the sort keys (lexicographic, strings by `<`). -/
def keyLEb (x y : List Char × List Char) : Bool :=
  strLt x.1 y.1 || (x.1 == y.1 && !(strLt y.2 x.2))

/-- The order in which `scan_event_vtcs` sorts the free entries. -/
def entryLE (a b : VTCEntry) : Prop := keyLEb (sortKey a) (sortKey b) = true

instance : DecidableRel entryLE := fun a b => by
  unfold entryLE
  infer_instance

instance : IsTotal VTCEntry entryLE where
  total a b := by
    unfold entryLE keyLEb
    by_cases h1 : strLt (sortKey a).1 (sortKey b).1
    · left
      simp [h1]
    · by_cases h2 : strLt (sortKey b).1 (sortKey a).1
      · right
        simp [h2]
      · have he : (sortKey a).1 = (sortKey b).1 :=
          strLt_connex _ _ (by simpa using h1) (by simpa using h2)
        by_cases h3 : strLt (sortKey b).2 (sortKey a).2
        · right
          have h4 : strLt (sortKey a).2 (sortKey b).2 = false := strLt_asymm _ _ h3
          simp [he, h4]
        · left
          simp [he, (by simpa using h3 : strLt (sortKey b).2 (sortKey a).2 = false)]

instance : IsTrans VTCEntry entryLE where
  trans a b c hab hbc := by
    unfold entryLE keyLEb at hab hbc ⊢
    simp only [Bool.or_eq_true, Bool.and_eq_true, beq_iff_eq,
      Bool.not_eq_true'] at hab hbc ⊢
    rcases hab with hab | ⟨he1, h2⟩
    · rcases hbc with hbc | ⟨he2, _⟩
      · exact Or.inl (strLt_trans _ _ _ hab hbc)
      · exact Or.inl (he2 ▸ hab)
    · rcases hbc with hbc | ⟨he2, h4⟩
      · exact Or.inl (he1 ▸ hbc)
      · refine Or.inr ⟨he1.trans he2, ?_⟩
        cases hzx : strLt (sortKey c).2 (sortKey a).2
        · rfl
        · exfalso
          by_cases hyz : strLt (sortKey b).2 (sortKey c).2 = true
          · have := strLt_trans _ _ _ hyz hzx
            rw [h2] at this
            exact absurd this (by simp)
          · have hcb : (sortKey b).2 = (sortKey c).2 :=
              strLt_connex _ _ (by simpa using hyz) h4
            rw [← hcb, h2] at hzx
            exact absurd hzx (by simp)

/-- The `/scan` response model. -/
structure ScanResponse where
  busy_vtc_ids : List Int
  free_vtcs : List VTCEntry
deriving DecidableEq

/-- The `/scan` handler `scan_event_vtcs`: reject an empty url list with
HTTP 400, collect the busy set, keep the roster records whose id is not
busy, convert them to entries, sort, and respond. -/
def scan_event_vtcs (db : List (Int × RawVTC)) (fetch : String → Option Markup)
    (event_urls : List String) : Except (Nat × String) ScanResponse :=
  if event_urls = [] then .error (400, "event_urls list cannot be empty")
  else
    let busy_ids := collect_busy_vtcs fetch event_urls
    let free0 := (db.filter fun p => decide (p.1 ∉ busy_ids)).map
      fun p => map_vtc_dict_to_entry p.1 p.2
    .ok { busy_vtc_ids := Finset.sort (· ≤ ·) busy_ids
          free_vtcs := List.insertionSort entryLE free0 }

theorem scan_ok_eq (db : List (Int × RawVTC)) (fetch : String → Option Markup)
    (urls : List String) (h : urls ≠ []) :
    scan_event_vtcs db fetch urls = .ok
      { busy_vtc_ids := Finset.sort (· ≤ ·) (collect_busy_vtcs fetch urls)
        free_vtcs := List.insertionSort entryLE
          ((db.filter fun p => decide (p.1 ∉ collect_busy_vtcs fetch urls)).map
            fun p => map_vtc_dict_to_entry p.1 p.2) } := by
  rw [scan_event_vtcs, if_neg h]

theorem scan_ok_inv (db : List (Int × RawVTC)) (fetch : String → Option Markup)
    (urls : List String) (r : ScanResponse)
    (h : scan_event_vtcs db fetch urls = .ok r) :
    r.busy_vtc_ids = Finset.sort (· ≤ ·) (collect_busy_vtcs fetch urls) ∧
    r.free_vtcs = List.insertionSort entryLE
      ((db.filter fun p => decide (p.1 ∉ collect_busy_vtcs fetch urls)).map
        fun p => map_vtc_dict_to_entry p.1 p.2) := by
  by_cases hu : urls = []
  · rw [hu, scan_event_vtcs, if_pos rfl] at h
    exact absurd h (by simp)
  · rw [scan_ok_eq db fetch urls hu] at h
    cases Except.ok.inj h
    exact ⟨rfl, rfl⟩

/-- The successful-response shape of `scan_event_vtcs`. -/
def scanOkResponse (db : List (Int × RawVTC)) (fetch : String → Option Markup)
    (urls : List String) : ScanResponse :=
  { busy_vtc_ids := Finset.sort (· ≤ ·) (collect_busy_vtcs fetch urls)
    free_vtcs := List.insertionSort entryLE
      ((db.filter fun p => decide (p.1 ∉ collect_busy_vtcs fetch urls)).map
        fun p => map_vtc_dict_to_entry p.1 p.2) }

theorem scan_eq_scanOkResponse (db : List (Int × RawVTC))
    (fetch : String → Option Markup) (urls : List String) (h : urls ≠ []) :
    scan_event_vtcs db fetch urls = .ok (scanOkResponse db fetch urls) :=
  scan_ok_eq db fetch urls h

theorem mem_scan_free (db : List (Int × RawVTC)) (fetch : String → Option Markup)
    (urls : List String) (r : ScanResponse)
    (h : scan_event_vtcs db fetch urls = .ok r) (e : VTCEntry) :
    e ∈ r.free_vtcs ↔ ∃ p ∈ db, p.1 ∉ collect_busy_vtcs fetch urls ∧
      e = map_vtc_dict_to_entry p.1 p.2 := by
  obtain ⟨_, hf⟩ := scan_ok_inv db fetch urls r h
  rw [hf, List.Perm.mem_iff (List.perm_insertionSort entryLE _)]
  simp only [List.mem_map, List.mem_filter, decide_eq_true_eq]
  constructor
  · rintro ⟨p, ⟨hp, hnb⟩, he⟩
    exact ⟨p, hp, hnb, he.symm⟩
  · rintro ⟨p, hp, hnb, he⟩
    exact ⟨p, ⟨hp, hnb⟩, he.symm⟩

theorem unionList_empty_of_all (l : List (Finset Int)) :
    (∀ s ∈ l, s = ∅) → unionList l = ∅ := by
  induction l with
  | nil => intro _; rfl
  | cons s rest ih =>
    intro h
    rw [unionList_cons, h s (by simp), Finset.empty_union]
    exact ih fun t ht => h t (by simp [ht])

theorem collect_empty_of_ws (fetch : String → Option Markup) (urls : List String)
    (h : ∀ u ∈ urls, trimChars u.data = []) :
    collect_busy_vtcs fetch urls = ∅ := by
  rw [collect_eq_unionList]
  refine unionList_empty_of_all _ ?_
  intro s hs
  obtain ⟨u, hu, hc⟩ := List.mem_map.mp hs
  rw [← hc]
  simp [contrib, h u hu]

-- ---------------------------------------------------------------------
-- Claim theorems
-- ---------------------------------------------------------------------

/-- C2: for every markup, the extractor returns exactly the integers formed
by the digit run immediately following the (first) `/vtc/` segment of a
hyperlink target — the run stops at the first non-digit, non-numeric tails
are skipped, pages decompose as unions — and on the markup with hyperlinks
`/vtc/41`, `/vtc/42-some-slug`, `/vtc/bad`, `/other/43` the result is
exactly `{41, 42}`. -/
theorem C2_extraction_correct :
    (parse_vtcs_from_event_html
        [some "/vtc/41", some "/vtc/42-some-slug", some "/vtc/bad",
          some "/other/43"]
      = {41, 42}) ∧
    (∀ p ds rest, containsSub vtcPat (p ++ vtcPat.dropLast) = false →
      ds ≠ [] → (∀ c ∈ ds, c.isDigit) →
      (∀ c, rest.head? = some c → c.isDigit = false) →
      parse_vtcs_from_event_html [some (String.mk (p ++ (vtcPat ++ (ds ++ rest))))]
        = {((digitsVal ds : Nat) : Int)}) ∧
    (∀ p q, containsSub vtcPat (p ++ vtcPat.dropLast) = false →
      (∀ c, q.head? = some c → c.isDigit = false) →
      parse_vtcs_from_event_html [some (String.mk (p ++ (vtcPat ++ q)))] = ∅) ∧
    (∀ l₁ l₂ : Markup, parse_vtcs_from_event_html (l₁ ++ l₂)
      = parse_vtcs_from_event_html l₁ ∪ parse_vtcs_from_event_html l₂) := by
  refine ⟨by decide, ?_, ?_, parse_append⟩
  · intro p ds rest h1 h2 h3 h4
    have hp := parseHref_clean p ds rest h1 h2 h3 h4
    simp [parse_vtcs_from_event_html, parseStep, hp]
  · intro p q h1 h2
    have hp := parseHref_skip p q h1 h2
    simp [parse_vtcs_from_event_html, parseStep, hp]

/-- Witness for C2 at the concrete target `x//vtc/42-a`. -/
theorem C2_extraction_correct_witness :
    parse_vtcs_from_event_html
        [some (String.mk ("x/".data ++ (vtcPat ++ (['4', '2'] ++ ['-', 'a']))))]
      = {(42 : Int)} ∧
    parse_vtcs_from_event_html
        [some (String.mk ("y/".data ++ (vtcPat ++ "bad".data)))] = ∅ := by
  constructor
  · have h := C2_extraction_correct.2.1 "x/".data ['4', '2'] ['-', 'a']
      (by decide) (by decide) (by decide) (by decide)
    exact h
  · exact C2_extraction_correct.2.2.1 "y/".data "bad".data (by decide) (by decide)

/-- C5: an empty event-url list yields the HTTP 400 error before any fetch
is attempted (the result does not depend on the fetch oracle), and never a
successful response. -/
theorem C5_empty_input_rejected :
    ∀ (db : List (Int × RawVTC)) (fetch fetch' : String → Option Markup),
      scan_event_vtcs db fetch [] = .error (400, "event_urls list cannot be empty") ∧
      scan_event_vtcs db fetch [] = scan_event_vtcs db fetch' [] ∧
      ∀ r, scan_event_vtcs db fetch [] ≠ .ok r := by
  intro db fetch fetch'
  refine ⟨rfl, rfl, ?_⟩
  intro r h
  rw [scan_event_vtcs, if_pos rfl] at h
  exact absurd h (by simp)

/-- C6: a failing fetch (or whitespace url) contributes the empty set: the
scan never aborts on a non-empty url list, the busy set equals the union of
the extractions of the successfully fetched pages only, and a failing head
reference leaves the busy set unchanged. -/
theorem C6_fetch_failures_skipped :
    (∀ (db : List (Int × RawVTC)) (fetch : String → Option Markup)
        (urls : List String), urls ≠ [] →
      (scan_event_vtcs db fetch urls).isOk = true) ∧
    (∀ (fetch : String → Option Markup) (urls : List String),
      collect_busy_vtcs fetch urls
        = unionList ((successPages fetch urls).map parse_vtcs_from_event_html)) ∧
    (∀ (fetch : String → Option Markup) (u : String) (urls : List String),
      fetch (String.mk (trimChars u.data)) = none →
      collect_busy_vtcs fetch (u :: urls) = collect_busy_vtcs fetch urls) := by
  refine ⟨?_, collect_eq_successPages, ?_⟩
  · intro db fetch urls h
    rw [scan_eq_scanOkResponse db fetch urls h]
    rfl
  · intro fetch u urls hfail
    rw [collect_eq_unionList, collect_eq_unionList, List.map_cons, unionList_cons]
    have hc : contrib fetch u = ∅ := by
      unfold contrib
      by_cases ht : trimChars u.data = []
      · simp [ht]
      · simp [ht, hfail]
    rw [hc, Finset.empty_union]

/-- Witness for C6: one failing reference among two does not abort and
contributes nothing. -/
theorem C6_fetch_failures_skipped_witness :
    (scan_event_vtcs []
      (fun u => if u = "a" then some [some "/vtc/5"] else none) ["a", "b"]).isOk
      = true ∧
    collect_busy_vtcs (fun u => if u = "a" then some [some "/vtc/5"] else none)
        ("b" :: ["a"])
      = collect_busy_vtcs (fun u => if u = "a" then some [some "/vtc/5"] else none)
        ["a"] :=
  ⟨C6_fetch_failures_skipped.1 [] _ ["a", "b"] (by decide),
   C6_fetch_failures_skipped.2.2 _ "b" ["a"] (by decide)⟩

/-- C8: the busy-set accumulation is an order-independent union: swapping
two event references (or any permutation) leaves the busy set unchanged,
and the per-reference merge is commutative and associative. -/
theorem C8_busy_union_order_independent :
    (∀ (fetch : String → Option Markup) (A B : String),
      collect_busy_vtcs fetch [A, B] = collect_busy_vtcs fetch [B, A]) ∧
    (∀ (fetch : String → Option Markup) (l₁ l₂ : List String), l₁.Perm l₂ →
      collect_busy_vtcs fetch l₁ = collect_busy_vtcs fetch l₂) ∧
    (∀ (fetch : String → Option Markup) (u v w : String),
      contrib fetch u ∪ contrib fetch v = contrib fetch v ∪ contrib fetch u ∧
      contrib fetch u ∪ contrib fetch v ∪ contrib fetch w
        = contrib fetch u ∪ (contrib fetch v ∪ contrib fetch w)) := by
  refine ⟨?_, fun fetch l₁ l₂ h => collect_perm fetch h, ?_⟩
  · intro fetch A B
    exact collect_perm fetch (List.Perm.swap B A [])
  · intro fetch u v w
    exact ⟨Finset.union_comm _ _, Finset.union_assoc _ _ _⟩

/-- Witness for C8 on two concrete references with distinct pages. -/
theorem C8_busy_union_order_independent_witness :
    collect_busy_vtcs
        (fun u => if u = "a" then some [some "/vtc/1"] else some [some "/vtc/2"])
        ["a", "b"]
      = collect_busy_vtcs
        (fun u => if u = "a" then some [some "/vtc/1"] else some [some "/vtc/2"])
        ["b", "a"] :=
  C8_busy_union_order_independent.2.1 _ ["a", "b"] ["b", "a"]
    (List.Perm.swap "b" "a" [])

/-- C9: the extractor is total: the `Except`-level parse always returns
`ok` (every `IndexError`/`ValueError` is caught), and malformed or
non-numeric anchors are silently skipped. -/
theorem C9_extractor_total :
    (∀ anchors : Markup,
      parse_vtcs_E anchors = Except.ok (parse_vtcs_from_event_html anchors)) ∧
    (∀ href : String, (parseHrefE href).isOk = true) ∧
    parse_vtcs_from_event_html
        [none, some "", some "<a href=", some "/vtc/", some "/vtc/bad",
          some "/vtc/?p=1", some "////", some "\u0000\u0001"]
      = ∅ := by
  refine ⟨parse_E_eq_ok, ?_, by decide⟩
  intro href
  rw [parseHrefE_eq_ok]
  rfl

/-- C7: id uniqueness and last-write-wins of `load_vtc_db`: keys are nodup,
the value stored under `k` is the last source record whose id parsed to
`k`, and no record without a parseable id is stored. -/
theorem C7_load_last_write_wins :
    (∀ data : List RawItem, ((load_vtc_db data).map Prod.fst).Nodup) ∧
    (∀ (data : List RawItem) (k : Int),
      lookupId k (load_vtc_db data) = lastWins data k) ∧
    (∀ data : List RawItem, ∀ p ∈ load_vtc_db data,
      p.2.idField = some (some p.1)) :=
  ⟨load_keys_nodup, lookupId_load, load_ids_stored⟩

/-- Fixture for C7: two records sharing id 7, one unparseable id, one
non-dict entry. -/
def rawDupFirst : RawVTC :=
  { idField := some (some 7), name := some "first", status := some "normal"
    recruitment := some "OPEN", tmp_url := none, truckersmp_url := none
    url := none, discord := none, discord_url := none, otherFields := [] }

def rawDupSecond : RawVTC :=
  { idField := some (some 7), name := some "second", status := some "verified"
    recruitment := some "OPEN", tmp_url := none, truckersmp_url := none
    url := none, discord := none, discord_url := none, otherFields := [] }

def rawUnparseable : RawVTC :=
  { idField := some none, name := some "bad", status := none
    recruitment := none, tmp_url := none, truckersmp_url := none
    url := none, discord := none, discord_url := none, otherFields := [] }

def rosterFixture : List RawItem :=
  [.dict rawDupFirst, .notDict, .dict rawUnparseable, .dict rawDupSecond]

/-- Witness for C7 on the fixture roster: the duplicate id 7 resolves to
the later record, keys are nodup, and the stored pair's id matches. -/
theorem C7_load_last_write_wins_witness :
    ((load_vtc_db rosterFixture).map Prod.fst).Nodup ∧
    lookupId 7 (load_vtc_db rosterFixture) = lastWins rosterFixture 7 ∧
    lastWins rosterFixture 7 = some rawDupSecond ∧
    (7, rawDupSecond).2.idField = some (some ((7, rawDupSecond) : Int × RawVTC).1) :=
  ⟨C7_load_last_write_wins.1 rosterFixture,
   C7_load_last_write_wins.2.1 rosterFixture 7,
   by decide,
   C7_load_last_write_wins.2.2 rosterFixture (7, rawDupSecond) (by decide)⟩

/-- Fixture record for C10. -/
def rawSimple : RawVTC :=
  { idField := some (some 1), name := some "One", status := some "normal"
    recruitment := some "CLOSED", tmp_url := none, truckersmp_url := none
    url := none, discord := none, discord_url := none, otherFields := [] }

/-- C10: a non-empty url list containing only whitespace strings passes the
non-empty validation, triggers no fetch (the result is oracle-independent),
and yields a successful response with empty busy list and the full roster
(sorted) as available. -/
theorem C10_whitespace_only_urls :
    ∀ (db : List (Int × RawVTC)) (fetch fetch' : String → Option Markup)
      (urls : List String), urls ≠ [] → (∀ u ∈ urls, trimChars u.data = []) →
      scan_event_vtcs db fetch urls = scan_event_vtcs db fetch' urls ∧
      scan_event_vtcs db fetch urls = .ok
        { busy_vtc_ids := []
          free_vtcs := List.insertionSort entryLE
            (db.map fun p => map_vtc_dict_to_entry p.1 p.2) } := by
  intro db fetch fetch' urls hne hws
  have key : ∀ f : String → Option Markup,
      scan_event_vtcs db f urls = .ok
        { busy_vtc_ids := []
          free_vtcs := List.insertionSort entryLE
            (db.map fun p => map_vtc_dict_to_entry p.1 p.2) } := by
    intro f
    rw [scan_eq_scanOkResponse db f urls hne]
    unfold scanOkResponse
    simp only [collect_empty_of_ws f urls hws, Finset.sort_empty]
    have hfil : (db.filter fun p => decide (p.1 ∉ (∅ : Finset Int))) = db := by
      rw [List.filter_eq_self]
      intro a _
      simp
    rw [hfil]
  exact ⟨(key fetch).trans (key fetch').symm, key fetch⟩

/-- Witness for C10 on a two-element whitespace url list. -/
theorem C10_whitespace_only_urls_witness :
    scan_event_vtcs [(1, rawSimple)] (fun _ => none) [" ", "\t"]
      = scan_event_vtcs [(1, rawSimple)] (fun _ => some [some "/vtc/1"]) [" ", "\t"] ∧
    scan_event_vtcs [(1, rawSimple)] (fun _ => none) [" ", "\t"] = .ok
      { busy_vtc_ids := []
        free_vtcs := List.insertionSort entryLE
          (([(1, rawSimple)] : List (Int × RawVTC)).map
            fun p => map_vtc_dict_to_entry p.1 p.2) } :=
  C10_whitespace_only_urls [(1, rawSimple)] _ _ [" ", "\t"] (by decide) (by decide)

/-- Fixture record for C3: non-busy, recruitment `"CLOSED"`. -/
def rawClosed : RawVTC :=
  { idField := some (some 1), name := some "Alpha", status := some "normal"
    recruitment := some "CLOSED", tmp_url := none, truckersmp_url := none
    url := none, discord := none, discord_url := none, otherFields := [] }

/-- C3 counterexample: the code has no recruitment filter (and no filter
options at all) — a non-busy record whose recruitment field is `"CLOSED"`
still appears in the available list, contradicting the claimed exclusion. -/
theorem C3_counterexample :
    scan_event_vtcs [(1, rawClosed)] (fun _ => none) ["e"]
      = .ok (scanOkResponse [(1, rawClosed)] (fun _ => none) ["e"]) ∧
    map_vtc_dict_to_entry 1 rawClosed
      ∈ (scanOkResponse [(1, rawClosed)] (fun _ => none) ["e"]).free_vtcs ∧
    (map_vtc_dict_to_entry 1 rawClosed).recruitment = some "CLOSED" ∧
    (1 : Int) ∉ collect_busy_vtcs (fun _ => none) ["e"] :=
  ⟨scan_eq_scanOkResponse _ _ _ (by decide), by decide, by decide, by decide⟩

/-- C3 amended: the scan applies no recruitment (or any other) filter — an
entry is in the available list exactly when it comes from a roster record
whose id is not busy. -/
theorem C3_no_recruitment_filter :
    ∀ (db : List (Int × RawVTC)) (fetch : String → Option Markup)
      (urls : List String) (r : ScanResponse),
      scan_event_vtcs db fetch urls = .ok r →
      ∀ e : VTCEntry, e ∈ r.free_vtcs ↔
        ∃ p ∈ db, p.1 ∉ collect_busy_vtcs fetch urls ∧
          e = map_vtc_dict_to_entry p.1 p.2 :=
  fun db fetch urls r h e => mem_scan_free db fetch urls r h e

/-- Witness for C3 amended: the CLOSED-recruitment record is available. -/
theorem C3_no_recruitment_filter_witness :
    map_vtc_dict_to_entry 1 rawClosed
      ∈ (scanOkResponse [(1, rawClosed)] (fun _ => none) ["e"]).free_vtcs :=
  (C3_no_recruitment_filter [(1, rawClosed)] (fun _ => none) ["e"] _
      (scan_eq_scanOkResponse _ _ _ (by decide))
      (map_vtc_dict_to_entry 1 rawClosed)).mpr
    ⟨(1, rawClosed), by decide, by decide, rfl⟩

/-- C4 counterexample: two scans that process different numbers of events
produce identical responses, so the response cannot contain a count of
events processed (nor any summary counts — the response has exactly the
busy list and the free list). -/
theorem C4_counterexample :
    scan_event_vtcs [] (fun u => if u = "a" then some [] else none) ["a"]
      = scan_event_vtcs [] (fun u => if u = "a" then some [] else none) ["a", "b"] ∧
    (["a"] : List String).length ≠ (["a", "b"] : List String).length := by
  constructor
  · rw [scan_eq_scanOkResponse _ _ _ (by decide),
      scan_eq_scanOkResponse _ _ _ (by decide)]
    have hc : collect_busy_vtcs (fun u => if u = "a" then some [] else none) ["a"]
        = collect_busy_vtcs (fun u => if u = "a" then some [] else none)
          ["a", "b"] := by decide
    unfold scanOkResponse
    simp only [hc]
  · decide

/-- C4 amended: the successful response consists of exactly two components
— the ascending-sorted busy id list and the available-entry list — with no
summary counts. -/
theorem C4_response_busy_and_free_only :
    (∀ r : ScanResponse, r = ⟨r.busy_vtc_ids, r.free_vtcs⟩) ∧
    (∀ (db : List (Int × RawVTC)) (fetch : String → Option Markup)
        (urls : List String) (r : ScanResponse),
      scan_event_vtcs db fetch urls = .ok r →
      List.Sorted (· ≤ ·) r.busy_vtc_ids ∧
      (∀ n : Int, n ∈ r.busy_vtc_ids ↔ n ∈ collect_busy_vtcs fetch urls) ∧
      r.free_vtcs = List.insertionSort entryLE
        ((db.filter fun p => decide (p.1 ∉ collect_busy_vtcs fetch urls)).map
          fun p => map_vtc_dict_to_entry p.1 p.2)) := by
  refine ⟨fun r => rfl, ?_⟩
  intro db fetch urls r h
  obtain ⟨hb, hf⟩ := scan_ok_inv db fetch urls r h
  refine ⟨?_, ?_, hf⟩
  · rw [hb]
    exact Finset.sort_sorted _ _
  · intro n
    rw [hb]
    exact Finset.mem_sort _

/-- Witness for C4 amended at a concrete scan. -/
theorem C4_response_busy_and_free_only_witness :
    List.Sorted (· ≤ ·) (scanOkResponse [] (fun _ => none) ["x"]).busy_vtc_ids ∧
    ((7 : Int) ∈ (scanOkResponse [] (fun _ => none) ["x"]).busy_vtc_ids ↔
      (7 : Int) ∈ collect_busy_vtcs (fun _ => none) ["x"]) :=
  ⟨(C4_response_busy_and_free_only.2 [] (fun _ => none) ["x"] _
      (scan_eq_scanOkResponse _ _ _ (by decide))).1,
   (C4_response_busy_and_free_only.2 [] (fun _ => none) ["x"] _
      (scan_eq_scanOkResponse _ _ _ (by decide))).2.1 7⟩

/-- Fixtures for C1: two verified records (members 5 and 50) and one normal
record (members 1000); members lives in the pass-through side-bag. -/
def rawVerifiedA : RawVTC :=
  { idField := some (some 1), name := some "alpha", status := some "verified"
    recruitment := some "OPEN", tmp_url := none, truckersmp_url := none
    url := none, discord := none, discord_url := none
    otherFields := [("members", "5")] }

def rawVerifiedB : RawVTC :=
  { idField := some (some 2), name := some "beta", status := some "verified"
    recruitment := some "OPEN", tmp_url := none, truckersmp_url := none
    url := none, discord := none, discord_url := none
    otherFields := [("members", "50")] }

def rawNormalC : RawVTC :=
  { idField := some (some 3), name := some "gamma", status := some "normal"
    recruitment := some "OPEN", tmp_url := none, truckersmp_url := none
    url := none, discord := none, discord_url := none
    otherFields := [("members", "1000")] }

def dbSortExample : List (Int × RawVTC) :=
  [(1, rawVerifiedA), (2, rawVerifiedB), (3, rawNormalC)]

/-- C1 counterexample: on the spec's three records the code outputs
`(normal,1000)` first — it sorts by the raw status string (so `"normal"` <
`"verified"` lexicographically) then lower-cased name, ignoring `members` —
not the claimed `(verified,50), (verified,5), (normal,1000)`. -/
theorem C1_counterexample :
    scan_event_vtcs dbSortExample (fun _ => none) ["e"]
      = .ok (scanOkResponse dbSortExample (fun _ => none) ["e"]) ∧
    (scanOkResponse dbSortExample (fun _ => none) ["e"]).free_vtcs.map
        VTCEntry.id = [3, 1, 2] ∧
    ([3, 1, 2] : List Int) ≠ [2, 1, 3] :=
  ⟨scan_eq_scanOkResponse _ _ _ (by decide), by decide, by decide⟩

/-- C1 amended: the free list is exactly the non-busy roster records
(converted to entries), stably sorted ascending by the key
`(status or "ZZZ", lowercased name)` — raw status string order, no members
key. -/
theorem C1_sorted_by_status_string_then_name :
    ∀ (db : List (Int × RawVTC)) (fetch : String → Option Markup)
      (urls : List String) (r : ScanResponse),
      scan_event_vtcs db fetch urls = .ok r →
      List.Sorted entryLE r.free_vtcs ∧
      r.free_vtcs.Perm
        ((db.filter fun p => decide (p.1 ∉ collect_busy_vtcs fetch urls)).map
          fun p => map_vtc_dict_to_entry p.1 p.2) := by
  intro db fetch urls r h
  obtain ⟨_, hf⟩ := scan_ok_inv db fetch urls r h
  rw [hf]
  exact ⟨List.sorted_insertionSort entryLE _, List.perm_insertionSort entryLE _⟩

/-- Witness for C1 amended on the three-record fixture. -/
theorem C1_sorted_by_status_string_then_name_witness :
    List.Sorted entryLE
      (scanOkResponse dbSortExample (fun _ => none) ["e"]).free_vtcs :=
  (C1_sorted_by_status_string_then_name dbSortExample (fun _ => none) ["e"] _
    (scan_eq_scanOkResponse _ _ _ (by decide))).1

/-- Witness for C5 at the concrete empty request. -/
theorem C5_empty_input_rejected_witness :
    scan_event_vtcs [] (fun _ => none) []
      = .error (400, "event_urls list cannot be empty") ∧
    scan_event_vtcs [] (fun _ => none) []
      ≠ .ok { busy_vtc_ids := [], free_vtcs := [] } :=
  ⟨(C5_empty_input_rejected [] (fun _ => none) (fun _ => none)).1,
   (C5_empty_input_rejected [] (fun _ => none) (fun _ => none)).2.2 _⟩
